import Mathlib

/-!
Verification of the core of `oahc-go`, an OCI capacity-hunting tool.

The development shallowly embeds the request signer (`oci/signer.go`),
the proactive rate limiter (`oci/rate_limiter.go`), the two backoff
managers (`backoff/backoff.go`, exponential and binary variants), the
error-classification and orchestration logic of the two `main.go`
variants (single-invocation and daemon), the suspension-marker check
(`checkWaiter`), and the Telegram message truncation
(`notifier/notifier.go`).

Bytes are modelled as `Nat` values (< 256), Go strings as Lean
`String`/`List Nat`, and `time.Time`/`time.Duration` as `Int`
milliseconds.  SHA-256 and standard base64 are implemented concretely
(the Go code calls `crypto/sha256` and `encoding/base64.StdEncoding`);
the RSA-PKCS#1 v1.5 primitive is kept as an explicit function parameter,
with injectivity as a hypothesis where a claim needs it, since collision
behaviour of the primitive is outside the program.
-/

namespace OahcGo

/-! ## 32-bit word operations -/

/-- 32-bit bitwise AND. -/
def and32 (a b : Nat) : Nat := a &&& b

/-- 32-bit bitwise XOR. -/
def xor32 (a b : Nat) : Nat := a ^^^ b

/-- 32-bit complement (argument assumed `< 2^32`). -/
def not32 (a : Nat) : Nat := 4294967295 ^^^ a

/-- Logical right shift. -/
def shr32 (n a : Nat) : Nat := a >>> n

/-- 32-bit right rotation (argument assumed `< 2^32`). -/
def rotr32 (n a : Nat) : Nat := (a >>> n) ||| ((a % 2 ^ n) <<< (32 - n))

/-- Addition modulo `2^32`. -/
def add32 (a b : Nat) : Nat := (a + b) % 4294967296

/-! ## SHA-256 (FIPS 180-4), as called by `crypto/sha256.Sum256` -/

/-- The eight working variables of the SHA-256 compression function. -/
structure Sha256State where
  a : Nat
  b : Nat
  c : Nat
  d : Nat
  e : Nat
  f : Nat
  g : Nat
  h : Nat

/-- SHA-256 initial hash value. -/
def sha256Init : Sha256State :=
  ⟨1779033703, 3144134277, 1013904242, 2773480762,
   1359893119, 2600822924, 528734635, 1541459225⟩

/-- SHA-256 round constants. -/
def sha256K : List Nat :=
  [1116352408, 1899447441, 3049323471, 3921009573, 961987163, 1508970993,
   2453635748, 2870763221, 3624381080, 310598401, 607225278, 1426881987,
   1925078388, 2162078206, 2614888103, 3248222580, 3835390401, 4022224774,
   264347078, 604807628, 770255983, 1249150122, 1555081692, 1996064986,
   2554220882, 2821834349, 2952996808, 3210313671, 3336571891, 3584528711,
   113926993, 338241895, 666307205, 773529912, 1294757372, 1396182291,
   1695183700, 1986661051, 2177026350, 2456956037, 2730485921, 2820302411,
   3259730800, 3345764771, 3516065817, 3600352804, 4094571909, 275423344,
   430227734, 506948616, 659060556, 883997877, 958139571, 1322822218,
   1537002063, 1747873779, 1955562222, 2024104815, 2227730452, 2361852424,
   2428436474, 2756734187, 3204031479, 3329325298]

/-- σ₀ message-schedule function. -/
def ssig0 (w : Nat) : Nat := xor32 (xor32 (rotr32 7 w) (rotr32 18 w)) (shr32 3 w)

/-- σ₁ message-schedule function. -/
def ssig1 (w : Nat) : Nat := xor32 (xor32 (rotr32 17 w) (rotr32 19 w)) (shr32 10 w)

/-- Σ₀ compression function. -/
def bsig0 (a : Nat) : Nat := xor32 (xor32 (rotr32 2 a) (rotr32 13 a)) (rotr32 22 a)

/-- Σ₁ compression function. -/
def bsig1 (e : Nat) : Nat := xor32 (xor32 (rotr32 6 e) (rotr32 11 e)) (rotr32 25 e)

/-- Ch(e,f,g). -/
def chF (e f g : Nat) : Nat := xor32 (and32 e f) (and32 (not32 e) g)

/-- Maj(a,b,c). -/
def majF (a b c : Nat) : Nat := xor32 (xor32 (and32 a b) (and32 a c)) (and32 b c)

/-- Extend 16 message words to the 64-word schedule. -/
def extendSchedule (w16 : List Nat) : List Nat :=
  (List.range 48).foldl
    (fun w i =>
      w ++ [add32 (add32 (ssig1 (w.getD (i + 14) 0)) (w.getD (i + 9) 0))
              (add32 (ssig0 (w.getD (i + 1) 0)) (w.getD i 0))])
    w16

/-- The 64 SHA-256 rounds over one block schedule. -/
def sha256Rounds (w : List Nat) (s : Sha256State) : Sha256State :=
  (List.range 64).foldl
    (fun st t =>
      let t1 := add32 (add32 (add32 st.h (bsig1 st.e)) (add32 (chF st.e st.f st.g) (sha256K.getD t 0)))
                  (w.getD t 0)
      let t2 := add32 (bsig0 st.a) (majF st.a st.b st.c)
      ⟨add32 t1 t2, st.a, st.b, st.c, add32 st.d t1, st.e, st.f, st.g⟩)
    s

/-- Big-endian 32-bit words from bytes, four at a time. -/
def wordsOfBytes : List Nat → List Nat
  | b0 :: b1 :: b2 :: b3 :: rest =>
      (b0 * 16777216 + b1 * 65536 + b2 * 256 + b3) :: wordsOfBytes rest
  | _ => []

/-- Split a word list into 16-word blocks (input length is a multiple of 16). -/
def chunk16 : List Nat → List (List Nat)
  | w0 :: w1 :: w2 :: w3 :: w4 :: w5 :: w6 :: w7 ::
    w8 :: w9 :: w10 :: w11 :: w12 :: w13 :: w14 :: w15 :: rest =>
      [w0, w1, w2, w3, w4, w5, w6, w7, w8, w9, w10, w11, w12, w13, w14, w15] :: chunk16 rest
  | _ => []

/-- The eight bytes of the 64-bit big-endian message length. -/
def lenBytes64 (n : Nat) : List Nat :=
  [n / 72057594037927936 % 256, n / 281474976710656 % 256, n / 1099511627776 % 256,
   n / 4294967296 % 256, n / 16777216 % 256, n / 65536 % 256, n / 256 % 256, n % 256]

/-- SHA-256 padding: `0x80`, zeros to 56 mod 64, then the bit length. -/
def sha256Pad (msg : List Nat) : List Nat :=
  msg ++ [128] ++ List.replicate ((64 - (msg.length + 9) % 64) % 64) 0 ++ lenBytes64 (8 * msg.length)

/-- The four big-endian bytes of a 32-bit word. -/
def wordBytes (w : Nat) : List Nat :=
  [w / 16777216 % 256, w / 65536 % 256, w / 256 % 256, w % 256]

/-- One SHA-256 block step: compress and add into the chaining state. -/
def sha256Block (st : Sha256State) (block : List Nat) : Sha256State :=
  let r := sha256Rounds (extendSchedule block) st
  ⟨add32 st.a r.a, add32 st.b r.b, add32 st.c r.c, add32 st.d r.d,
   add32 st.e r.e, add32 st.f r.f, add32 st.g r.g, add32 st.h r.h⟩

/-- SHA-256 of a byte list, as `sha256.Sum256` computes it. -/
def sha256 (msg : List Nat) : List Nat :=
  let fin := (chunk16 (wordsOfBytes (sha256Pad msg))).foldl sha256Block sha256Init
  wordBytes fin.a ++ wordBytes fin.b ++ wordBytes fin.c ++ wordBytes fin.d ++
  wordBytes fin.e ++ wordBytes fin.f ++ wordBytes fin.g ++ wordBytes fin.h

set_option maxRecDepth 100000 in
/-- FIPS 180-4 test vector: SHA-256("abc"). -/
theorem sha256_abc :
    sha256 [97, 98, 99] =
      [186, 120, 22, 191, 143, 1, 207, 234, 65, 65, 64, 222, 93, 174, 34, 35,
       176, 3, 97, 163, 150, 23, 122, 156, 180, 16, 255, 97, 242, 0, 21, 173] := by
  decide

/-- Each of the four big-endian bytes of a word is below 256. -/
theorem wordBytes_mem_lt (w x : Nat) (h : x ∈ wordBytes w) : x < 256 := by
  simp only [wordBytes, List.mem_cons, List.not_mem_nil, or_false] at h
  rcases h with h | h | h | h <;> subst h <;> omega

/-- All SHA-256 output entries are bytes. -/
theorem sha256_mem_lt (msg : List Nat) : ∀ x ∈ sha256 msg, x < 256 := by
  intro x hx
  simp only [sha256, List.mem_append] at hx
  rcases hx with ((((((h | h) | h) | h) | h) | h) | h) | h <;> exact wordBytes_mem_lt _ _ h

/-- A SHA-256 digest is 32 bytes. -/
theorem sha256_length (msg : List Nat) : (sha256 msg).length = 32 := by
  simp [sha256, wordBytes]

/-! ## Standard base64 (`encoding/base64.StdEncoding`) -/

/-- The standard base64 alphabet. -/
def b64Alphabet : List Char :=
  "ABCDEFGHIJKLMNOPQRSTUVWXYZabcdefghijklmnopqrstuvwxyz0123456789+/".data

/-- The character for a six-bit group. -/
def sextetChar (n : Nat) : Char := b64Alphabet.getD n 'A'

/-- Standard base64 with `=` padding, three input bytes per four output
characters, as `base64.StdEncoding.EncodeToString` produces it. -/
def base64Encode : List Nat → List Char
  | [] => []
  | [a] => [sextetChar (a / 4), sextetChar (a % 4 * 16), '=', '=']
  | [a, b] => [sextetChar (a / 4), sextetChar (a % 4 * 16 + b / 16), sextetChar (b % 16 * 4), '=']
  | a :: b :: c :: rest =>
      sextetChar (a / 4) :: sextetChar (a % 4 * 16 + b / 16) ::
        sextetChar (b % 16 * 4 + c / 64) :: sextetChar (c % 64) :: base64Encode rest

/-- Index of a character in the base64 alphabet. -/
def charSextet (c : Char) : Nat := b64Alphabet.indexOf c

/-- Inverse of `base64Encode`, used only to establish injectivity. -/
def base64Decode : List Char → List Nat
  | w :: x :: y :: z :: rest =>
      if z = '=' then
        if y = '=' then [charSextet w * 4 + charSextet x / 16]
        else [charSextet w * 4 + charSextet x / 16, charSextet x % 16 * 16 + charSextet y / 4]
      else
        (charSextet w * 4 + charSextet x / 16) ::
          (charSextet x % 16 * 16 + charSextet y / 4) ::
          (charSextet y % 4 * 64 + charSextet z) :: base64Decode rest
  | _ => []

/-- Decoding the character of a six-bit group recovers the group. -/
theorem charSextet_sextetChar : ∀ n, n < 64 → charSextet (sextetChar n) = n := by decide

/-- No six-bit group encodes to the padding character. -/
theorem sextetChar_ne_pad : ∀ n, n < 64 → sextetChar n ≠ '=' := by decide

/-- `base64Decode` is a left inverse of `base64Encode` on byte lists. -/
theorem base64_roundtrip : ∀ l : List Nat, (∀ b ∈ l, b < 256) → base64Decode (base64Encode l) = l
  | [], _ => by simp [base64Encode, base64Decode]
  | [a], h => by
      have ha : a < 256 := h a (by simp)
      rw [base64Encode, base64Decode, if_pos rfl, if_pos rfl,
        charSextet_sextetChar _ (by omega), charSextet_sextetChar _ (by omega)]
      exact congrArg (fun n => [n]) (by omega)
  | [a, b], h => by
      have ha : a < 256 := h a (by simp)
      have hb : b < 256 := h b (by simp)
      rw [base64Encode, base64Decode, if_pos rfl,
        if_neg (sextetChar_ne_pad (b % 16 * 4) (by omega)),
        charSextet_sextetChar _ (by omega), charSextet_sextetChar _ (by omega),
        charSextet_sextetChar _ (by omega)]
      have h1 : a / 4 * 4 + (a % 4 * 16 + b / 16) / 16 = a := by omega
      have h2 : (a % 4 * 16 + b / 16) % 16 * 16 + b % 16 * 4 / 4 = b := by omega
      rw [h1, h2]
  | a :: b :: c :: rest, h => by
      have ha : a < 256 := h a (by simp)
      have hb : b < 256 := h b (by simp)
      have hc : c < 256 := h c (by simp)
      have hrec := base64_roundtrip rest
        (fun x hx => h x (by simp only [List.mem_cons]; tauto))
      rw [base64Encode, base64Decode, if_neg (sextetChar_ne_pad (c % 64) (by omega)),
        charSextet_sextetChar _ (by omega), charSextet_sextetChar _ (by omega),
        charSextet_sextetChar _ (by omega), charSextet_sextetChar _ (by omega), hrec]
      have h1 : a / 4 * 4 + (a % 4 * 16 + b / 16) / 16 = a := by omega
      have h2 : (a % 4 * 16 + b / 16) % 16 * 16 + (b % 16 * 4 + c / 64) / 4 = b := by omega
      have h3 : (b % 16 * 4 + c / 64) % 4 * 64 + c % 64 = c := by omega
      rw [h1, h2, h3]

/-- `base64Encode` is injective on byte lists. -/
theorem base64Encode_injOn {l l' : List Nat} (hl : ∀ b ∈ l, b < 256) (hl' : ∀ b ∈ l', b < 256)
    (h : base64Encode l = base64Encode l') : l = l' := by
  have := congrArg base64Decode h
  rwa [base64_roundtrip l hl, base64_roundtrip l' hl'] at this

/-! ## Signer (`oci/signer.go`) -/

/-- ASCII lowering of the HTTP method (`strings.ToLower`). -/
def lowerStr (s : String) : String := ⟨s.data.map Char.toLower⟩

/-- `base64.StdEncoding.EncodeToString(sha256.Sum256(body))`, the value of
the `x-content-sha256` header. -/
def contentSha256 (body : List Nat) : String := ⟨base64Encode (sha256 body)⟩

/-- The condition under which `Sign` adds body headers:
`req.Method == "POST" || req.Method == "PUT"`. -/
def hasBodyHeaders (method : String) : Bool := method == "POST" || method == "PUT"

/-- The canonical signing string, by successive appends exactly as
`Signer.Sign` builds it. -/
def signingString (method uri date host : String) (body : List Nat) : String :=
  let base := "(request-target): " ++ lowerStr method ++ " " ++ uri
      ++ "\ndate: " ++ date ++ "\nhost: " ++ host
  if hasBodyHeaders method then
    base ++ "\nx-content-sha256: " ++ contentSha256 body
      ++ "\ncontent-type: application/json"
      ++ "\ncontent-length: " ++ toString body.length
  else base

/-- The header names recorded while building the signing string
(`headersToSign` in the source), in order of inclusion. -/
def headersToSign (method : String) : List String :=
  ["(request-target)", "date", "host"] ++
    (if hasBodyHeaders method then ["x-content-sha256", "content-type", "content-length"] else [])

/-- The signing string as the list of its lines. -/
def signingLines (method uri date host : String) (body : List Nat) : List String :=
  ["(request-target): " ++ lowerStr method ++ " " ++ uri, "date: " ++ date, "host: " ++ host] ++
    (if hasBodyHeaders method then
      ["x-content-sha256: " ++ contentSha256 body, "content-type: application/json",
       "content-length: " ++ toString body.length]
    else [])

/-- The per-header values paired with `headersToSign`. -/
def lineValues (method uri date host : String) (body : List Nat) : List String :=
  [lowerStr method ++ " " ++ uri, date, host] ++
    (if hasBodyHeaders method then [contentSha256 body, "application/json", toString body.length]
     else [])

/-- `keyID` as `NewSigner` builds it: `tenancy/user/fingerprint`. -/
def mkKeyID (tenancy user fingerprint : String) : String :=
  tenancy ++ "/" ++ user ++ "/" ++ fingerprint

/-- Go `[]byte(s)` for an ASCII string. -/
def strBytes (s : String) : List Nat := s.data.map Char.toNat

/-- The `Authorization` header value built by `Sign`; `rsaSign` stands for
`rsa.SignPKCS1v15` with the signer's private key, applied to the SHA-256
digest of the signing string. -/
def authHeader (keyId : String) (rsaSign : List Nat → List Nat)
    (method uri date host : String) (body : List Nat) : String :=
  "Signature version=\"1\",keyId=\"" ++ keyId ++ "\",algorithm=\"rsa-sha256\",headers=\""
    ++ String.intercalate " " (headersToSign method) ++ "\",signature=\""
    ++ String.mk (base64Encode (rsaSign (sha256 (strBytes (signingString method uri date host body)))))
    ++ "\""

/-- Merging two adjacent string literals under right-associated append. -/
theorem lit_merge (a b c : String) (h : a ++ b = c) (x : String) : a ++ (b ++ x) = c ++ x := by
  rw [← String.append_assoc, h]

/-- Different SHA-256 digests give different `x-content-sha256` values. -/
theorem contentSha256_ne {b b' : List Nat} (h : sha256 b ≠ sha256 b') :
    contentSha256 b ≠ contentSha256 b' := by
  intro he
  exact h (base64Encode_injOn (sha256_mem_lt b) (sha256_mem_lt b') (congrArg String.data he))

/-- The signing string is the newline-join of its lines. -/
theorem signingString_eq_intercalate (method uri date host : String) (body : List Nat) :
    signingString method uri date host body =
      String.intercalate "\n" (signingLines method uri date host body) := by
  cases hm : hasBodyHeaders method <;>
    simp only [signingString, signingLines, hm, if_true, if_false, Bool.false_eq_true,
      List.cons_append, List.nil_append, List.append_nil,
      String.intercalate, String.intercalate.go, String.append_assoc] <;>
    rw [lit_merge "\n" "date: " "\ndate: " rfl, lit_merge "\n" "host: " "\nhost: " rfl]
  rw [lit_merge "\n" "x-content-sha256: " "\nx-content-sha256: " rfl,
    lit_merge "\n" "content-type: application/json" "\ncontent-type: application/json" rfl,
    lit_merge "\n" "content-length: " "\ncontent-length: " rfl]

/-- Strings with equal character data are equal. -/
theorem str_ext {s t : String} (h : s.data = t.data) : s = t := by
  cases s; cases t; cases h; rfl

theorem hasBody_get : hasBodyHeaders "GET" = false := rfl

theorem hasBody_post : hasBodyHeaders "POST" = true := rfl

theorem hasBody_put : hasBodyHeaders "PUT" = true := rfl

/-- A change of body that changes the SHA-256 digest changes the POST
signing string (for bodies of equal length). -/
theorem signingString_post_ne (uri date host : String) {b b' : List Nat}
    (hlen : b.length = b'.length) (hsha : sha256 b ≠ sha256 b') :
    signingString "POST" uri date host b ≠ signingString "POST" uri date host b' := by
  intro he
  apply contentSha256_ne hsha
  have hd := congrArg String.data he
  simp only [signingString, hasBody_post, if_true, hlen, String.data_append,
    List.append_assoc] at hd
  simp only [List.append_right_inj, List.append_left_inj] at hd
  exact str_ext hd

/-- A change of body that changes the SHA-256 digest changes the
`x-content-sha256` line. -/
theorem digestLine_ne {b b' : List Nat} (h : sha256 b ≠ sha256 b') :
    "x-content-sha256: " ++ contentSha256 b ≠ "x-content-sha256: " ++ contentSha256 b' := by
  intro he
  apply contentSha256_ne h
  have hd := congrArg String.data he
  simp only [String.data_append, List.append_right_inj] at hd
  exact str_ext hd

/-- If the digests of the signing strings differ, the emitted authorization
header values differ, for any injective byte-valued signing primitive. -/
theorem authHeader_ne_of_digest_ne (keyId : String) (rsaSign : List Nat → List Nat)
    (hinj : Function.Injective rsaSign)
    (hbytes : ∀ l : List Nat, (∀ x ∈ l, x < 256) → ∀ x ∈ rsaSign l, x < 256)
    (method u d h : String) {b b' : List Nat}
    (hm : sha256 (strBytes (signingString method u d h b)) ≠
      sha256 (strBytes (signingString method u d h b'))) :
    authHeader keyId rsaSign method u d h b ≠ authHeader keyId rsaSign method u d h b' := by
  intro he
  apply hm
  apply hinj
  have hd := congrArg String.data he
  simp only [authHeader, String.data_append, List.append_assoc] at hd
  simp only [List.append_right_inj, List.append_left_inj] at hd
  exact base64Encode_injOn (hbytes _ (sha256_mem_lt _)) (hbytes _ (sha256_mem_lt _)) hd

set_option maxRecDepth 1000000 in
/-- C1: `Signer.Sign` builds the canonical signing string as newline-joined
lines in exactly the order `(request-target)`, `date`, `host`, and for POST
and PUT additionally `x-content-sha256` (base64 of the body's SHA-256),
`content-type: application/json` and `content-length`; a GET signing string
has exactly 3 lines and a POST/PUT one exactly 6; a body change that
changes the SHA-256 digest changes the digest line and the signing string,
and a concrete one-byte body change changes the digest and, for any
injective byte-preserving signing primitive, the final signature header. -/
theorem c1_signing_string : (∀ uri date host body,
      signingLines "GET" uri date host body =
        ["(request-target): get " ++ uri, "date: " ++ date, "host: " ++ host] ∧
      (signingLines "GET" uri date host body).length = 3 ∧
      signingString "GET" uri date host body =
        String.intercalate "\n" (signingLines "GET" uri date host body)) ∧
    (∀ uri date host body,
      signingLines "POST" uri date host body =
        ["(request-target): post " ++ uri, "date: " ++ date, "host: " ++ host,
         "x-content-sha256: " ++ contentSha256 body, "content-type: application/json",
         "content-length: " ++ toString body.length] ∧
      signingLines "PUT" uri date host body =
        ["(request-target): put " ++ uri, "date: " ++ date, "host: " ++ host,
         "x-content-sha256: " ++ contentSha256 body, "content-type: application/json",
         "content-length: " ++ toString body.length] ∧
      (signingLines "POST" uri date host body).length = 6 ∧
      (signingLines "PUT" uri date host body).length = 6 ∧
      signingString "POST" uri date host body =
        String.intercalate "\n" (signingLines "POST" uri date host body) ∧
      signingString "PUT" uri date host body =
        String.intercalate "\n" (signingLines "PUT" uri date host body)) ∧
    (∀ uri date host (b b' : List Nat), b.length = b'.length → sha256 b ≠ sha256 b' →
      "x-content-sha256: " ++ contentSha256 b ≠ "x-content-sha256: " ++ contentSha256 b' ∧
      signingString "POST" uri date host b ≠ signingString "POST" uri date host b') ∧
    (sha256 [65] ≠ sha256 [66] ∧
      ∀ keyId rsaSign, Function.Injective rsaSign →
        (∀ l : List Nat, (∀ x ∈ l, x < 256) → ∀ x ∈ rsaSign l, x < 256) →
        authHeader keyId rsaSign "POST" "/i" "D" "H" [65] ≠
          authHeader keyId rsaSign "POST" "/i" "D" "H" [66]) := by
  refine ⟨?_, ?_, ?_, ?_, ?_⟩
  · intro uri date host body
    refine ⟨?_, by simp [signingLines, hasBody_get], signingString_eq_intercalate _ _ _ _ _⟩
    simp only [signingLines, hasBody_get, Bool.false_eq_true, if_false, List.append_nil,
      String.append_assoc]
    rw [lit_merge "(request-target): " (lowerStr "GET") "(request-target): get" rfl,
      lit_merge "(request-target): get" " " "(request-target): get " rfl]
  · intro uri date host body
    refine ⟨?_, ?_, by simp [signingLines, hasBody_post], by simp [signingLines, hasBody_put],
      signingString_eq_intercalate _ _ _ _ _, signingString_eq_intercalate _ _ _ _ _⟩
    · simp only [signingLines, hasBody_post, if_true, List.cons_append, List.nil_append,
        String.append_assoc]
      rw [lit_merge "(request-target): " (lowerStr "POST") "(request-target): post" rfl,
        lit_merge "(request-target): post" " " "(request-target): post " rfl]
    · simp only [signingLines, hasBody_put, if_true, List.cons_append, List.nil_append,
        String.append_assoc]
      rw [lit_merge "(request-target): " (lowerStr "PUT") "(request-target): put" rfl,
        lit_merge "(request-target): put" " " "(request-target): put " rfl]
  · intro uri date host b b' hlen hsha
    exact ⟨digestLine_ne hsha, signingString_post_ne uri date host hlen hsha⟩
  · decide
  · intro keyId rsaSign hinj hbytes
    exact authHeader_ne_of_digest_ne keyId rsaSign hinj hbytes "POST" "/i" "D" "H" (by decide)

/-- Witness for C1 at a concrete one-byte body change (`"A"` vs `"B"`),
with the identity as an injective byte-preserving signing primitive. -/
theorem c1_signing_string_witness :
    "x-content-sha256: " ++ contentSha256 [65] ≠ "x-content-sha256: " ++ contentSha256 [66] ∧
    signingString "POST" "/i" "D" "H" [65] ≠ signingString "POST" "/i" "D" "H" [66] ∧
    authHeader "t/u/f" id "POST" "/i" "D" "H" [65] ≠ authHeader "t/u/f" id "POST" "/i" "D" "H" [66] := by
  have hsha : sha256 [65] ≠ sha256 [66] := c1_signing_string.2.2.2.1
  have h := c1_signing_string.2.2.1 "/i" "D" "H" [65] [66] rfl hsha
  refine ⟨h.1, h.2, ?_⟩
  exact c1_signing_string.2.2.2.2 "t/u/f" id (fun _ _ hxy => hxy) (fun _ hl => hl)

/-- C6: the emitted authorization header value is bit-exact of the form
`Signature version="1",keyId="<tenancy>/<user>/<fingerprint>",algorithm="rsa-sha256",headers="<space-joined names>",signature="<base64 signature>"`,
where the keyId is the slash-joined credential triple and the headers
parameter names exactly the signed headers, in the order their lines were
added to the signing string. -/
theorem c6_auth_header_format :
    ∀ tenancy user fp rsaSign method uri date host body,
      authHeader (mkKeyID tenancy user fp) rsaSign method uri date host body =
        "Signature version=\"1\",keyId=\"" ++ (tenancy ++ "/" ++ user ++ "/" ++ fp) ++
          "\",algorithm=\"rsa-sha256\",headers=\"" ++
          String.intercalate " " (headersToSign method) ++ "\",signature=\"" ++
          String.mk (base64Encode (rsaSign (sha256 (strBytes
            (signingString method uri date host body))))) ++ "\"" ∧
      headersToSign "GET" = ["(request-target)", "date", "host"] ∧
      headersToSign "POST" =
        ["(request-target)", "date", "host", "x-content-sha256", "content-type", "content-length"] ∧
      headersToSign "PUT" =
        ["(request-target)", "date", "host", "x-content-sha256", "content-type", "content-length"] ∧
      signingLines method uri date host body =
        List.zipWith (fun n v => n ++ ": " ++ v) (headersToSign method)
          (lineValues method uri date host body) := by
  intro tenancy user fp rsaSign method uri date host body
  refine ⟨rfl, by simp [headersToSign, hasBody_get], by simp [headersToSign, hasBody_post],
    by simp [headersToSign, hasBody_put], ?_⟩
  cases hm : hasBodyHeaders method <;>
    simp only [signingLines, headersToSign, lineValues, hm, if_true, if_false, Bool.false_eq_true,
      List.cons_append, List.nil_append, List.append_nil, List.zipWith,
      String.append_assoc] <;>
    rw [lit_merge "(request-target)" ": " "(request-target): " rfl,
      lit_merge "date" ": " "date: " rfl, lit_merge "host" ": " "host: " rfl]
  rw [lit_merge "x-content-sha256" ": " "x-content-sha256: " rfl,
    lit_merge "content-length" ": " "content-length: " rfl,
    lit_merge "content-type" ": " "content-type: " rfl,
    show ("content-type: " : String) ++ "application/json" = "content-type: application/json" from rfl]

/-! ## Error classification (`main.go` lines 74-93 and daemon `main` lines 74-91) -/

/-- Go `strings.Contains`: `pat` occurs as a contiguous substring of `s`. -/
def strContains (s pat : String) : Bool :=
  (List.range (s.data.length + 1)).any (fun i => pat.data.isPrefixOf (s.data.drop i))

/-- The closed classification outcome. -/
inductive Outcome
  | capacityExhausted
  | throttled
  | fatal
deriving DecidableEq

/-- The capacity-unavailable message substring both mains test for. -/
def capacityMsg : String := "Out of host capacity"

/-- Error classification as `src/main.go` performs it: the capacity test
(status 500 plus message substring) runs before the throttle test
(status 429 or code `TooManyRequests`); everything else is fatal. -/
def classify (status : Int) (code msg : String) : Outcome :=
  if status = 500 ∧ strContains msg capacityMsg then .capacityExhausted
  else if status = 429 ∨ code = "TooManyRequests" then .throttled
  else .fatal

/-- Error classification as the daemon main (part_004) performs it: the
throttle test runs before the capacity test. -/
def classifyDaemon (status : Int) (code msg : String) : Outcome :=
  if status = 429 ∨ code = "TooManyRequests" then .throttled
  else if status = 500 ∧ strContains msg capacityMsg then .capacityExhausted
  else .fatal

theorem classify_capacity_iff (s : Int) (c m : String) :
    classify s c m = Outcome.capacityExhausted ↔ s = 500 ∧ strContains m capacityMsg := by
  unfold classify
  split_ifs <;> simp_all

theorem classify_throttled_iff (s : Int) (c m : String) :
    classify s c m = Outcome.throttled ↔
      (s = 429 ∨ c = "TooManyRequests") ∧ ¬(s = 500 ∧ strContains m capacityMsg) := by
  unfold classify
  split_ifs <;> simp_all

theorem classify_fatal_iff (s : Int) (c m : String) :
    classify s c m = Outcome.fatal ↔
      ¬(s = 429 ∨ c = "TooManyRequests") ∧ ¬(s = 500 ∧ strContains m capacityMsg) := by
  unfold classify
  split_ifs <;> simp_all

theorem classifyDaemon_throttled_iff (s : Int) (c m : String) :
    classifyDaemon s c m = Outcome.throttled ↔ (s = 429 ∨ c = "TooManyRequests") := by
  unfold classifyDaemon
  split_ifs <;> simp_all

theorem classifyDaemon_capacity_iff (s : Int) (c m : String) :
    classifyDaemon s c m = Outcome.capacityExhausted ↔
      (s = 500 ∧ strContains m capacityMsg) ∧ ¬(s = 429 ∨ c = "TooManyRequests") := by
  unfold classifyDaemon
  split_ifs <;> simp_all

/-- C3 (counterexample): at status 500, code `TooManyRequests` and a
capacity message, `src/main.go` classifies capacity-exhausted although the
claimed "throttled iff status 429 or code TooManyRequests" demands
throttled, so the claimed pair of iffs fails on the code. -/
theorem c3_classification_counterexample :
    classify 500 "TooManyRequests" "Out of host capacity" = Outcome.capacityExhausted ∧
    ((500 : Int) = 429 ∨ ("TooManyRequests" : String) = "TooManyRequests") ∧
    ¬(classify 500 "TooManyRequests" "Out of host capacity" = Outcome.throttled ↔
        ((500 : Int) = 429 ∨ ("TooManyRequests" : String) = "TooManyRequests")) := by
  refine ⟨by decide, by decide, ?_⟩
  intro h
  have := h.mpr (by decide)
  exact absurd this (by decide)

/-- C3 (amended): classification is a pure function of
`{status, code, message}` into the closed set; in `src/main.go` the
capacity test takes precedence, so capacity-exhausted holds iff status is
500 and the message contains the capacity substring, throttled holds iff
(status 429 or code `TooManyRequests`) and not the capacity condition, and
everything else is fatal; the daemon main tests throttle first, giving the
opposite precedence on the overlap. -/
theorem c3_classification :
    ∀ (s : Int) (c m : String),
      (classify s c m = Outcome.capacityExhausted ↔ s = 500 ∧ strContains m capacityMsg) ∧
      (classify s c m = Outcome.throttled ↔
        (s = 429 ∨ c = "TooManyRequests") ∧ ¬(s = 500 ∧ strContains m capacityMsg)) ∧
      (classify s c m = Outcome.fatal ↔
        ¬(s = 429 ∨ c = "TooManyRequests") ∧ ¬(s = 500 ∧ strContains m capacityMsg)) ∧
      (classifyDaemon s c m = Outcome.throttled ↔ (s = 429 ∨ c = "TooManyRequests")) ∧
      (classifyDaemon s c m = Outcome.capacityExhausted ↔
        (s = 500 ∧ strContains m capacityMsg) ∧ ¬(s = 429 ∨ c = "TooManyRequests")) :=
  fun s c m =>
    ⟨classify_capacity_iff s c m, classify_throttled_iff s c m, classify_fatal_iff s c m,
     classifyDaemon_throttled_iff s c m, classifyDaemon_capacity_iff s c m⟩

/-! ## Exponential backoff manager (part_000, package `backoff`) -/

/-- The exponential backoff manager state; durations and instants in
milliseconds. -/
structure BackoffMgr where
  initialDelay : Int
  maxDelay : Int
  currentDelay : Int
  waitUntil : Int
deriving DecidableEq

/-- `NewManager`: both delays start at the configured initial value and
`waitUntil` at `time.Now()`. -/
def newBackoffMgr (initial maxD now : Int) : BackoffMgr :=
  { initialDelay := initial, maxDelay := maxD, currentDelay := initial, waitUntil := now }

/-- `Wait`: sleep until `waitUntil` if it is still ahead; returns the time
when the caller resumes. -/
def mgrWait (m : BackoffMgr) (now : Int) : Int := max now m.waitUntil

/-- `HandleTMR`: record `now + currentDelay` as the resume deadline, then
double `currentDelay`, capping at `maxDelay`. -/
def handleTMR (m : BackoffMgr) (now : Int) : BackoffMgr :=
  { m with waitUntil := now + m.currentDelay,
           currentDelay :=
             if m.maxDelay < m.currentDelay * 2 then m.maxDelay else m.currentDelay * 2 }

/-- `Reset`: restore `currentDelay` to the initial value (when it grew) and
clear the deadline. -/
def mgrReset (m : BackoffMgr) (now : Int) : BackoffMgr :=
  { m with currentDelay :=
             if m.initialDelay < m.currentDelay then m.initialDelay else m.currentDelay,
           waitUntil := now }

/-- `k` consecutive `HandleTMR` calls, all issued at time `now`. -/
def tmrIter (m : BackoffMgr) (now : Int) : Nat → BackoffMgr
  | 0 => m
  | k + 1 => handleTMR (tmrIter m now k) now

/-- `HandleTMR` never changes `maxDelay`. -/
theorem tmrIter_maxDelay (m : BackoffMgr) (now : Int) (k : Nat) :
    (tmrIter m now k).maxDelay = m.maxDelay := by
  induction k with
  | zero => rfl
  | succ k ih => simp [tmrIter, handleTMR, ih]

/-- Closed form of the delay growth for the `initial=2s, max=60s` instance. -/
theorem tmrIter_delay_closed (k : Nat) :
    (tmrIter (newBackoffMgr 2000 60000 0) 0 k).currentDelay = min (2000 * 2 ^ k) 60000 := by
  induction k with
  | zero => simp [tmrIter, newBackoffMgr]
  | succ k ih =>
      have hpos : (0 : Int) < 2000 * 2 ^ k := by positivity
      have hsucc : (2000 : Int) * 2 ^ (k + 1) = 2000 * 2 ^ k * 2 := by ring
      simp only [tmrIter, handleTMR]
      rw [ih, tmrIter_maxDelay, hsucc]
      simp only [newBackoffMgr]
      generalize (2000 : Int) * 2 ^ k = x at *
      split_ifs <;> omega

/-- C4: each `HandleTMR` records `now + currentDelay` as the resume
deadline and then doubles `currentDelay` capped at `maxDelay`; with
initial 2s and max 60s the recorded delay sequence of consecutive calls is
2s, 4s, 8s, …, capped at 60s from the sixth call on, and a `Reset` at any
point restores the next recorded delay to 2s. -/
theorem c4_exponential_backoff :
    (∀ (m : BackoffMgr) (now : Int),
      (handleTMR m now).waitUntil = now + m.currentDelay ∧
      (handleTMR m now).currentDelay =
        (if m.maxDelay < m.currentDelay * 2 then m.maxDelay else m.currentDelay * 2)) ∧
    (∀ k : Nat, (tmrIter (newBackoffMgr 2000 60000 0) 0 (k + 1)).waitUntil =
      min (2000 * 2 ^ k) 60000) ∧
    ((tmrIter (newBackoffMgr 2000 60000 0) 0 1).waitUntil = 2000 ∧
     (tmrIter (newBackoffMgr 2000 60000 0) 0 2).waitUntil = 4000 ∧
     (tmrIter (newBackoffMgr 2000 60000 0) 0 3).waitUntil = 8000) ∧
    (∀ k : Nat, 5 ≤ k → (tmrIter (newBackoffMgr 2000 60000 0) 0 k).currentDelay = 60000) ∧
    (∀ (m : BackoffMgr) (now nowR : Int), m.initialDelay = 2000 → 2000 ≤ m.currentDelay →
      (mgrReset m nowR).currentDelay = 2000 ∧
      (handleTMR (mgrReset m nowR) now).waitUntil = now + 2000) := by
  refine ⟨?_, ?_, by decide, ?_, ?_⟩
  · intro m now
    exact ⟨rfl, rfl⟩
  · intro k
    have := tmrIter_delay_closed k
    simp only [tmrIter, handleTMR, this]
    omega
  · intro k hk
    have h32 : (2 : Int) ^ 5 ≤ 2 ^ k := pow_le_pow_right₀ (by norm_num) hk
    have := tmrIter_delay_closed k
    have h2 : (2 : Int) ^ 5 = 32 := by norm_num
    rw [this]
    have : (2000 : Int) * 32 ≤ 2000 * 2 ^ k := by nlinarith
    omega
  · intro m now nowR hinit hcur
    have h1 : (mgrReset m nowR).currentDelay = 2000 := by
      simp only [mgrReset, hinit]
      split_ifs <;> omega
    exact ⟨h1, by simp only [handleTMR, mgrReset] at h1 ⊢; omega⟩

/-- Witness for C4 at concrete inputs: a state with grown delay is reset
back to a 2s next delay. -/
theorem c4_exponential_backoff_witness :
    (mgrReset (BackoffMgr.mk 2000 60000 32000 99) 7).currentDelay = 2000 ∧
    (handleTMR (mgrReset (BackoffMgr.mk 2000 60000 32000 99) 7) 100).waitUntil = 2100 ∧
    5 ≤ 6 ∧ (tmrIter (newBackoffMgr 2000 60000 0) 0 6).currentDelay = 60000 := by
  have h := c4_exponential_backoff.2.2.2.2 (BackoffMgr.mk 2000 60000 32000 99) 100 7 rfl
    (by norm_num)
  exact ⟨h.1, h.2, by norm_num, c4_exponential_backoff.2.2.2.1 6 (by norm_num)⟩

/-! ## Binary backoff manager (`backoff/backoff.go`) -/

/-- `HandleTMR` of the binary manager: the sleep duration (ms) taken
immediately, and the new `lastWasTMR` flag (always set). -/
def binHandleTMR (lastWasTMR : Bool) : Int × Bool :=
  (if lastWasTMR then 40000 else 20000, true)

/-- `Reset` clears the streak flag. -/
def binReset (_lastWasTMR : Bool) : Bool := false

/-- `NewManager` starts with `lastWasTMR: false`. -/
def binNew : Bool := false

/-- C9: the binary manager sleeps 20s on the first throttle of a streak
(flag unset) and 40s on each consecutive throttle; `HandleTMR` sets the
single boolean flag, `Reset` clears it, so a reset makes the next
`HandleTMR` sleep 20s again. -/
theorem c9_binary_backoff :
    (binHandleTMR false).1 = 20000 ∧ (binHandleTMR true).1 = 40000 ∧
    (∀ b, (binHandleTMR b).2 = true) ∧
    (∀ b, binReset b = false) ∧
    (binHandleTMR binNew).1 = 20000 ∧
    (∀ b, (binHandleTMR (binHandleTMR b).2).1 = 40000) ∧
    (∀ b, (binHandleTMR (binReset b)).1 = 20000) := by
  refine ⟨rfl, rfl, fun b => rfl, fun b => rfl, rfl, fun b => rfl, fun b => rfl⟩

/-! ## Telegram notifier truncation (part_003, `Notify`) -/

/-- Byte-level truncation before sending: Go `message[:4093] + "..."`
when `len(message) > 4096`. -/
def truncateMessage (msg : List Nat) : List Nat :=
  if 4096 < msg.length then msg.take 4093 ++ [46, 46, 46] else msg

/-- C10: a message longer than 4096 bytes is cut to its first 4093 bytes
with `...` appended, yielding exactly 4096 bytes; shorter messages are
sent unchanged. -/
theorem c10_notify_truncation :
    ∀ msg : List Nat,
      (4096 < msg.length →
        truncateMessage msg = msg.take 4093 ++ [46, 46, 46] ∧
        (truncateMessage msg).length = 4096) ∧
      (msg.length ≤ 4096 → truncateMessage msg = msg) := by
  intro msg
  constructor
  · intro h
    refine ⟨by simp [truncateMessage, h], ?_⟩
    simp only [truncateMessage, if_pos h, List.length_append, List.length_take,
      List.length_cons, List.length_nil]
    omega
  · intro h
    simp [truncateMessage, Nat.not_lt.mpr h]

/-- Witness for C10 at messages of 4097 and 4096 bytes. -/
theorem c10_notify_truncation_witness :
    (truncateMessage (List.replicate 4097 65)).length = 4096 ∧
    truncateMessage (List.replicate 4096 65) = List.replicate 4096 65 :=
  ⟨((c10_notify_truncation (List.replicate 4097 65)).1
      (by simp only [List.length_replicate]; omega)).2,
   (c10_notify_truncation (List.replicate 4096 65)).2
      (by simp only [List.length_replicate]; omega)⟩

/-! ## Suspension marker (`checkWaiter`, main.go lines 144-187) -/

/-- State of the waiter marker file. -/
inductive FileState
  | absent
  | unreadable (content : String)
  | present (content : String)
deriving DecidableEq

/-- `checkWaiter`: whether the run proceeds, and the marker file state
afterwards.  `parse` stands for `time.Parse(time.RFC3339, ·)` and `now`
for `time.Now()`; a read error propagates as an error (no proceed), a
parse failure deletes the marker and proceeds, a future instant refuses to
proceed, a past (or current) instant deletes the marker and proceeds. -/
def checkWaiter (parse : String → Option Int) (now : Int) : FileState → Bool × FileState
  | .absent => (true, .absent)
  | .unreadable c => (false, .unreadable c)
  | .present c =>
    match parse c with
    | none => (true, .absent)
    | some t => if now < t then (false, .present c) else (true, .absent)

/-- The only network call `main` can issue around the waiter check. -/
inductive NetCall
  | listInstances
deriving DecidableEq

/-- main.go lines 42-47: `checkWaiter` runs before any network call, and on
its error `main` returns at once; otherwise `ListInstances` is the first
network call. -/
def mainStartupCalls (parse : String → Option Int) (now : Int) (fs : FileState) : List NetCall :=
  if (checkWaiter parse now fs).1 then [NetCall.listInstances] else []

/-- C7: the startup waiter check proceeds iff the marker is absent,
unparseable, or holds a past (or current) instant; it deletes the marker
in the latter two cases; and with a future instant the process issues no
network call and exits right after reading the marker. -/
theorem c7_waiter_check :
    ∀ (parse : String → Option Int) (now : Int) (fs : FileState),
      ((checkWaiter parse now fs).1 = true ↔
        fs = .absent ∨ (∃ c, fs = .present c ∧ parse c = none) ∨
          (∃ c t, fs = .present c ∧ parse c = some t ∧ t ≤ now)) ∧
      (∀ c, fs = .present c → parse c = none → checkWaiter parse now fs = (true, .absent)) ∧
      (∀ c t, fs = .present c → parse c = some t → t ≤ now →
        checkWaiter parse now fs = (true, .absent)) ∧
      (fs = .absent → checkWaiter parse now fs = (true, .absent)) ∧
      (∀ c t, fs = .present c → parse c = some t → now < t →
        (checkWaiter parse now fs).1 = false ∧ mainStartupCalls parse now fs = []) := by
  intro parse now fs
  refine ⟨?_, ?_, ?_, ?_, ?_⟩
  · cases fs with
    | absent => simp [checkWaiter]
    | unreadable c => simp [checkWaiter]
    | present c =>
        cases hp : parse c with
        | none => simp [checkWaiter, hp]
        | some t =>
            by_cases ht : now < t <;> simp [checkWaiter, hp, ht] <;> omega
  · intro c hc hp
    subst hc
    simp [checkWaiter, hp]
  · intro c t hc hp hle
    subst hc
    simp [checkWaiter, hp, Int.not_lt.mpr hle]
  · intro h
    subst h
    rfl
  · intro c t hc hp hlt
    subst hc
    have h1 : (checkWaiter parse now (FileState.present c)).1 = false := by
      simp [checkWaiter, hp, hlt]
    exact ⟨h1, by simp [mainStartupCalls, h1]⟩

/-- Witness for C7: a marker 5 minutes (300000 ms) in the future blocks the
run with no network call; a past marker is deleted and the run proceeds. -/
theorem c7_waiter_check_witness :
    ((checkWaiter (fun _ => some 300000) 0 (FileState.present "m")).1 = false ∧
      mainStartupCalls (fun _ => some 300000) 0 (FileState.present "m") = []) ∧
    checkWaiter (fun _ => some (-300000)) 0 (FileState.present "m") = (true, FileState.absent) := by
  constructor
  · exact (c7_waiter_check (fun _ => some 300000) 0 (FileState.present "m")).2.2.2.2 "m" 300000
      rfl rfl (by omega)
  · exact (c7_waiter_check (fun _ => some (-300000)) 0 (FileState.present "m")).2.2.1 "m"
      (-300000) rfl rfl (by omega)

/-! ## Orchestrator: per-target loops of the two mains -/

/-- One provider response to a create-instance attempt, as the orchestrator
sees it: success, a structured `APIError`, or a non-API error (transport,
signing, undecodable payload — `errors.As` fails). -/
inductive ApiOutcome
  | ok
  | apiErr (status : Int) (code msg : String)
  | otherErr
deriving DecidableEq

/-- Whether main.go's capacity test accepts the outcome (its capacity
branch runs first, so this is also its capacity classification). -/
def isCapacity : ApiOutcome → Bool
  | .apiErr s _ m => decide (s = 500) && strContains m capacityMsg
  | _ => false

/-- Whether the daemon main takes its capacity branch for the outcome
(the throttle test runs first there). -/
def isCapacityDaemon : ApiOutcome → Bool
  | .apiErr s c m => decide (classifyDaemon s c m = Outcome.capacityExhausted)
  | _ => false

/-- How the single-invocation session (main.go) ends. -/
inductive SingleResult
  | created
  | throttledExit
  | fatalExit
  | noCapacity
deriving DecidableEq

/-- The availability-domain loop of `src/main.go` (lines 71-117): the
session result, the number of create attempts made, and the number of
waiter-file writes.  Capacity errors advance to the next domain; a
throttle writes the waiter file and returns; any other error is
`log.Fatalf`; success returns. -/
def runSingle : List ApiOutcome → SingleResult × Nat × Nat
  | [] => (.noCapacity, 0, 0)
  | r :: rest =>
    match r with
    | .ok => (.created, 1, 0)
    | .otherErr => (.fatalExit, 1, 0)
    | .apiErr status code msg =>
      if status = 500 ∧ strContains msg capacityMsg then
        ((runSingle rest).1, (runSingle rest).2.1 + 1, (runSingle rest).2.2)
      else if status = 429 ∨ code = "TooManyRequests" then (.throttledExit, 1, 1)
      else (.fatalExit, 1, 0)

/-- How one daemon polling cycle (part_004 lines 72-114) ends. -/
inductive CycleResult
  | created
  | tmrBreak
  | fatalBreak
  | exhausted
deriving DecidableEq

/-- The availability-domain loop of the daemon main: the cycle result, the
number of create attempts, and the number of `HandleTMR` invocations.  The
throttle test runs first and breaks after calling `HandleTMR`; capacity
errors advance; any other error logs and breaks (setting `tmrHitInCycle`
but not calling the handler); success returns from `main`. -/
def runCycleDaemon : List ApiOutcome → CycleResult × Nat × Nat
  | [] => (.exhausted, 0, 0)
  | r :: rest =>
    match r with
    | .ok => (.created, 1, 0)
    | .otherErr => (.fatalBreak, 1, 0)
    | .apiErr status code msg =>
      if status = 429 ∨ code = "TooManyRequests" then (.tmrBreak, 1, 1)
      else if status = 500 ∧ strContains msg capacityMsg then
        ((runCycleDaemon rest).1, (runCycleDaemon rest).2.1 + 1, (runCycleDaemon rest).2.2)
      else (.fatalBreak, 1, 0)

/-- Whether the daemon's outer `for` loop runs another cycle after this
one: only a successful creation returns from `main`. -/
def daemonContinues (r : CycleResult) : Bool := r ≠ CycleResult.created

/-- Total create attempts the daemon makes over a run scripted as a list
of per-cycle outcome lists. -/
def runDaemonAttempts : List (List ApiOutcome) → Nat
  | [] => 0
  | cycle :: more =>
    if daemonContinues (runCycleDaemon cycle).1 then
      (runCycleDaemon cycle).2.1 + runDaemonAttempts more
    else (runCycleDaemon cycle).2.1

/-- A prefix of capacity errors only adds to the attempt count of the
single-invocation loop. -/
theorem runSingle_capacity_skip (pre rest : List ApiOutcome)
    (h : ∀ x ∈ pre, isCapacity x = true) :
    runSingle (pre ++ rest) =
      ((runSingle rest).1, (runSingle rest).2.1 + pre.length, (runSingle rest).2.2) := by
  induction pre with
  | nil => simp
  | cons p pre ih =>
      have hp := h p (List.mem_cons_self p pre)
      cases p with
      | ok => simp [isCapacity] at hp
      | otherErr => simp [isCapacity] at hp
      | apiErr s c m =>
          have hc : s = 500 ∧ strContains m capacityMsg = true := by
            simpa [isCapacity] using hp
          rw [List.cons_append, runSingle, if_pos hc,
            ih (fun x hx => h x (List.mem_cons_of_mem _ hx))]
          simp only [List.length_cons, Prod.mk.injEq, true_and, and_true]
          omega

/-- A prefix of capacity errors only adds to the attempt count of the
daemon cycle. -/
theorem runCycleDaemon_capacity_skip (pre rest : List ApiOutcome)
    (h : ∀ x ∈ pre, isCapacityDaemon x = true) :
    runCycleDaemon (pre ++ rest) =
      ((runCycleDaemon rest).1, (runCycleDaemon rest).2.1 + pre.length,
        (runCycleDaemon rest).2.2) := by
  induction pre with
  | nil => simp
  | cons p pre ih =>
      have hp := h p (List.mem_cons_self p pre)
      cases p with
      | ok => simp [isCapacityDaemon] at hp
      | otherErr => simp [isCapacityDaemon] at hp
      | apiErr s c m =>
          have hcd : classifyDaemon s c m = Outcome.capacityExhausted := by
            simpa [isCapacityDaemon] using hp
          obtain ⟨hc, ht⟩ := (classifyDaemon_capacity_iff s c m).mp hcd
          rw [List.cons_append, runCycleDaemon, if_neg ht, if_pos hc,
            ih (fun x hx => h x (List.mem_cons_of_mem _ hx))]
          simp only [List.length_cons, Prod.mk.injEq, true_and, and_true]
          omega

/-- C5 (counterexample): in the daemon main, an error that both mains
classify as fatal ends the cycle but not the invocation — with a second
cycle available, a further create attempt is made (2 attempts in all),
contradicting "terminates the current session without retry". -/
theorem c5_fatal_counterexample :
    classifyDaemon 401 "NotAuthenticated" "key rejected" = Outcome.fatal ∧
    classify 401 "NotAuthenticated" "key rejected" = Outcome.fatal ∧
    daemonContinues (runCycleDaemon [ApiOutcome.apiErr 401 "NotAuthenticated" "key rejected"]).1
      = true ∧
    runDaemonAttempts
      [[ApiOutcome.apiErr 401 "NotAuthenticated" "key rejected"], [ApiOutcome.ok]] = 2 := by
  decide

/-- C5 (amended): in the single-invocation main, any error classified
neither as throttled nor as capacity-exhausted terminates the session via
`log.Fatalf` after exactly the attempts so far (nothing after it is
attempted, no waiter write); in the daemon main such an error ends the
current cycle (no later target in that cycle, no handler call) but the
outer loop continues, so later cycles may attempt again. -/
theorem c5_fatal_error_policy :
    (∀ (pre : List ApiOutcome) (s : Int) (c m : String) (rest : List ApiOutcome),
      (∀ x ∈ pre, isCapacity x = true) → classify s c m = Outcome.fatal →
      runSingle (pre ++ ApiOutcome.apiErr s c m :: rest) =
        (SingleResult.fatalExit, pre.length + 1, 0)) ∧
    (∀ (pre rest : List ApiOutcome), (∀ x ∈ pre, isCapacity x = true) →
      runSingle (pre ++ ApiOutcome.otherErr :: rest) =
        (SingleResult.fatalExit, pre.length + 1, 0)) ∧
    (∀ (pre : List ApiOutcome) (s : Int) (c m : String) (rest : List ApiOutcome),
      (∀ x ∈ pre, isCapacityDaemon x = true) → classifyDaemon s c m = Outcome.fatal →
      runCycleDaemon (pre ++ ApiOutcome.apiErr s c m :: rest) =
        (CycleResult.fatalBreak, pre.length + 1, 0) ∧
      daemonContinues CycleResult.fatalBreak = true) := by
  refine ⟨?_, ?_, ?_⟩
  · intro pre s c m rest hpre hf
    obtain ⟨hnt, hnc⟩ := (classify_fatal_iff s c m).mp hf
    rw [runSingle_capacity_skip pre _ hpre, runSingle, if_neg hnc, if_neg hnt]
    simp only [Prod.mk.injEq, true_and, and_true]
    omega
  · intro pre rest hpre
    rw [runSingle_capacity_skip pre _ hpre, runSingle]
    simp only [Prod.mk.injEq, true_and, and_true]
    omega
  · intro pre s c m rest hpre hf
    have hd := hf
    unfold classifyDaemon at hd
    by_cases ht : s = 429 ∨ c = "TooManyRequests"
    · rw [if_pos ht] at hd
      exact absurd hd (by decide)
    · by_cases hc : s = 500 ∧ strContains m capacityMsg = true
      · rw [if_neg ht, if_pos hc] at hd
        exact absurd hd (by decide)
      · refine ⟨?_, rfl⟩
        rw [runCycleDaemon_capacity_skip pre _ hpre, runCycleDaemon, if_neg ht, if_neg hc]
        simp only [Prod.mk.injEq, true_and, and_true]
        omega

/-- Witness for C5 (amended) at one capacity error followed by a fatal
authentication error. -/
theorem c5_fatal_error_policy_witness :
    runSingle [ApiOutcome.apiErr 500 "InternalError" "Out of host capacity",
        ApiOutcome.apiErr 401 "NotAuthenticated" "key rejected", ApiOutcome.ok] =
      (SingleResult.fatalExit, 2, 0) ∧
    runCycleDaemon [ApiOutcome.apiErr 500 "InternalError" "Out of host capacity",
        ApiOutcome.apiErr 401 "NotAuthenticated" "key rejected", ApiOutcome.ok] =
      (CycleResult.fatalBreak, 2, 0) := by
  constructor
  · exact c5_fatal_error_policy.1
      [ApiOutcome.apiErr 500 "InternalError" "Out of host capacity"] 401 "NotAuthenticated"
      "key rejected" [ApiOutcome.ok] (by decide) (by decide)
  · exact (c5_fatal_error_policy.2.2
      [ApiOutcome.apiErr 500 "InternalError" "Out of host capacity"] 401 "NotAuthenticated"
      "key rejected" [ApiOutcome.ok] (by decide) (by decide)).1

/-- C8: in a cycle whose first non-capacity attempt is classified
throttled, the backoff handler (daemon `HandleTMR`) or the waiter write
(single mode) fires exactly once, no later target is attempted in the
cycle, and the daemon then sleeps (the next cycle's `Wait` blocks past
`now`) and retries while the single-invocation session exits. -/
theorem c8_throttle_cycle :
    (∀ (pre : List ApiOutcome) (s : Int) (c m : String) (rest : List ApiOutcome),
      (∀ x ∈ pre, isCapacityDaemon x = true) → classifyDaemon s c m = Outcome.throttled →
      runCycleDaemon (pre ++ ApiOutcome.apiErr s c m :: rest) =
        (CycleResult.tmrBreak, pre.length + 1, 1) ∧
      daemonContinues CycleResult.tmrBreak = true) ∧
    (∀ (mgr : BackoffMgr) (now : Int), 0 < mgr.currentDelay →
      now < mgrWait (handleTMR mgr now) now) ∧
    (∀ (pre : List ApiOutcome) (s : Int) (c m : String) (rest : List ApiOutcome),
      (∀ x ∈ pre, isCapacity x = true) → classify s c m = Outcome.throttled →
      runSingle (pre ++ ApiOutcome.apiErr s c m :: rest) =
        (SingleResult.throttledExit, pre.length + 1, 1)) := by
  refine ⟨?_, ?_, ?_⟩
  · intro pre s c m rest hpre ht
    have h429 := (classifyDaemon_throttled_iff s c m).mp ht
    refine ⟨?_, rfl⟩
    rw [runCycleDaemon_capacity_skip pre _ hpre, runCycleDaemon, if_pos h429]
    simp only [Prod.mk.injEq, true_and, and_true]
    omega
  · intro mgr now h
    simp only [mgrWait, handleTMR]
    omega
  · intro pre s c m rest hpre ht
    obtain ⟨h429, hnc⟩ := (classify_throttled_iff s c m).mp ht
    rw [runSingle_capacity_skip pre _ hpre, runSingle, if_neg hnc, if_pos h429]
    simp only [Prod.mk.injEq, true_and, and_true]
    omega

/-- Witness for C8 at one capacity error followed by a throttle. -/
theorem c8_throttle_cycle_witness :
    runCycleDaemon [ApiOutcome.apiErr 500 "InternalError" "Out of host capacity",
        ApiOutcome.apiErr 429 "TooManyRequests" "slow down", ApiOutcome.ok] =
      (CycleResult.tmrBreak, 2, 1) ∧
    (0 : Int) < 2000 ∧ (0 : Int) < mgrWait (handleTMR (newBackoffMgr 2000 60000 0) 0) 0 ∧
    runSingle [ApiOutcome.apiErr 500 "InternalError" "Out of host capacity",
        ApiOutcome.apiErr 429 "TooManyRequests" "slow down", ApiOutcome.ok] =
      (SingleResult.throttledExit, 2, 1) := by
  refine ⟨?_, by decide, ?_, ?_⟩
  · exact (c8_throttle_cycle.1
      [ApiOutcome.apiErr 500 "InternalError" "Out of host capacity"] 429 "TooManyRequests"
      "slow down" [ApiOutcome.ok] (by decide) (by decide)).1
  · exact c8_throttle_cycle.2.1 (newBackoffMgr 2000 60000 0) 0 (by decide)
  · exact c8_throttle_cycle.2.2
      [ApiOutcome.apiErr 500 "InternalError" "Out of host capacity"] 429 "TooManyRequests"
      "slow down" [ApiOutcome.ok] (by decide) (by decide)

/-! ## Rate limiter (`oci/rate_limiter.go`)

Instants and durations in milliseconds; the one-millisecond safety margin
of the source is the literal `+ 1`.  Sleeps are modelled as advancing the
clock by exactly the computed duration; the correctness lemmas only use
that the clock never goes backwards, so they hold a fortiori for longer
real sleeps. -/

/-- `longTermWindow = 60 * time.Second`. -/
def longTermWindow : Int := 60000

/-- `longTermLimit = 10`. -/
def longTermLimit : Nat := 10

/-- `shortTermWindow = 10 * time.Second`. -/
def shortTermWindow : Int := 10000

/-- `shortTermLimit = 4`. -/
def shortTermLimit : Nat := 4

/-- Step 1 of `Wait`: keep only timestamps strictly after
`now - longTermWindow` (`ts.After(cutoff)`). -/
def pruneOld (ts : List Int) (now : Int) : List Int :=
  ts.filter (fun t => decide (now - longTermWindow < t))

/-- Step 2 of `Wait`: the count strictly inside the short window. -/
def shortCount (ts : List Int) (now : Int) : Nat :=
  (ts.filter (fun t => decide (now - shortTermWindow < t))).length

/-- Step 3 of `Wait`: the sleep before re-checking, exactly as the source
computes it (zero-initialised, long-window candidate first, then the
short-window candidate when it is the first or the smaller one). -/
def sleepDuration (ts : List Int) (now : Int) : Int :=
  let l := ts.length
  let sLong : Int :=
    if longTermLimit ≤ l then ts.getD (l - longTermLimit) 0 + longTermWindow - now + 1 else 0
  if shortTermLimit ≤ shortCount ts now then
    let sShort : Int := ts.getD (l - shortTermLimit) 0 + shortTermWindow - now + 1
    if sLong = 0 ∨ sShort < sLong then sShort else sLong
  else sLong

/-- The `for` loop of `Wait`, with explicit fuel: prune, count, and either
sleep and re-check or append the admission instant and return it. -/
def waitLoop : Nat → List Int → Int → Option (List Int × Int)
  | 0, _, _ => none
  | fuel + 1, ts0, now =>
    let ts := pruneOld ts0 now
    if longTermLimit ≤ ts.length ∨ shortTermLimit ≤ shortCount ts now then
      waitLoop fuel ts (if 0 < sleepDuration ts now then now + sleepDuration ts now else now)
    else some (ts ++ [now], now)

/-- Pruning at a later instant subsumes earlier pruning. -/
theorem pruneOld_pruneOld (ts : List Int) {n1 n2 : Int} (h : n1 ≤ n2) :
    pruneOld (pruneOld ts n1) n2 = pruneOld ts n2 := by
  simp only [pruneOld, List.filter_filter]
  apply List.filter_congr
  intro x _
  by_cases h2 : n2 - longTermWindow < x
  · have h1 : n1 - longTermWindow < x := by omega
    simp [h1, h2]
  · simp [h2]

/-- What holds when `waitLoop` admits: the admission instant is no earlier
than the call instant, the new state is the state pruned at the admission
instant plus the admission, and both window counts were strictly below
their limits at admission. -/
theorem waitLoop_some :
    ∀ (fuel : Nat) (ts : List Int) (now : Int) (st : List Int) (t : Int),
      waitLoop fuel ts now = some (st, t) →
      now ≤ t ∧ st = pruneOld ts t ++ [t] ∧
        (pruneOld ts t).length < longTermLimit ∧
        shortCount (pruneOld ts t) t < shortTermLimit := by
  intro fuel
  induction fuel with
  | zero => intro ts now st t h; simp [waitLoop] at h
  | succ fuel ih =>
      intro ts now st t h
      simp only [waitLoop] at h
      by_cases hc : longTermLimit ≤ (pruneOld ts now).length ∨
          shortTermLimit ≤ shortCount (pruneOld ts now) now
      · rw [if_pos hc] at h
        obtain ⟨h1, h2, h3, h4⟩ := ih _ _ _ _ h
        have hnn : now ≤ t := by
          refine le_trans ?_ h1
          split_ifs <;> omega
        rw [pruneOld_pruneOld ts hnn] at h2 h3 h4
        exact ⟨hnn, h2, h3, h4⟩
      · rw [if_neg hc] at h
        rw [Option.some.injEq, Prod.mk.injEq] at h
        obtain ⟨hst, hts⟩ := h
        push_neg at hc
        subst hts
        exact ⟨le_rfl, hst.symm, hc.1, hc.2⟩

/-- Sequential executions of `Wait`: `Run hist state clock` says the calls
admitted so far happened at the instants `hist` (in order), the limiter's
timestamp slice now holds `state`, and the last admission returned at
`clock`; each next call may start at any `now ≥ clock`. -/
inductive Run : List Int → List Int → Int → Prop
  | nil (now₀ : Int) : Run [] [] now₀
  | step {hist state : List Int} {clock now t : Int} {st : List Int} (fuel : Nat) :
      Run hist state clock → clock ≤ now →
      waitLoop fuel state now = some (st, t) →
      Run (hist ++ [t]) st t

/-- Every admitted instant is at or before the current clock. -/
theorem run_hist_le {hist state : List Int} {clock : Int} (h : Run hist state clock) :
    ∀ x ∈ hist, x ≤ clock := by
  induction h with
  | nil => simp
  | step fuel hrun hle hwl ih =>
      obtain ⟨hnt, _, _, _⟩ := waitLoop_some _ _ _ _ _ hwl
      intro x hx
      rcases List.mem_append.mp hx with hx | hx
      · exact le_trans (ih x hx) (by omega)
      · simp only [List.mem_singleton] at hx
        omega

/-- The limiter's state is the admission history filtered at a threshold
at least one long window in the past. -/
theorem run_state_filter {hist state : List Int} {clock : Int} (h : Run hist state clock) :
    ∃ c, c + longTermWindow ≤ clock ∧
      state = hist.filter (fun x => decide (c < x)) := by
  induction h with
  | nil now₀ => exact ⟨now₀ - longTermWindow, by omega, rfl⟩
  | @step hist state clock now t st fuel hrun hle hwl ih =>
      obtain ⟨c, hcW, hstate⟩ := ih
      obtain ⟨hnt, hst, _, _⟩ := waitLoop_some _ _ _ _ _ hwl
      refine ⟨max c (t - longTermWindow), by omega, ?_⟩
      have hmain : pruneOld (hist.filter (fun x => decide (c < x))) t =
          hist.filter (fun x => decide (max c (t - longTermWindow) < x)) := by
        simp only [pruneOld, List.filter_filter]
        apply List.filter_congr
        intro x _
        by_cases hx : max c (t - longTermWindow) < x
        · have f1 : t - longTermWindow < x := by omega
          have f2 : c < x := by omega
          simp [f1, f2, hx]
        · by_cases f1 : t - longTermWindow < x
          · have f2 : ¬c < x := by omega
            simp [f1, f2, hx]
          · simp [f1, hx]
      have hsingle : List.filter (fun x => decide (max c (t - longTermWindow) < x)) [t] = [t] := by
        have hW : longTermWindow = (60000 : Int) := rfl
        have h1 : max c (t - longTermWindow) < t := by omega
        simp only [List.filter_cons, List.filter_nil, decide_eq_true_eq]
        rw [if_pos h1]
      rw [hst, hstate, hmain, List.filter_append, hsingle]

/-- Elements of a `≤`-sorted list are monotone in the index. -/
theorem sorted_get_le {l : List Int} (hs : List.Sorted (· ≤ ·) l) (a b : Nat)
    (ha : a < l.length) (hb : b < l.length) (hab : a ≤ b) :
    l.get ⟨a, ha⟩ ≤ l.get ⟨b, hb⟩ := by
  rcases Nat.lt_or_ge a b with hlt | hge
  · exact List.pairwise_iff_get.mp hs ⟨a, ha⟩ ⟨b, hb⟩ hlt
  · have : a = b := by omega
    subst this
    rfl

/-- The admission history is sorted in admission order. -/
theorem run_sorted {hist state : List Int} {clock : Int} (h : Run hist state clock) :
    List.Sorted (· ≤ ·) hist := by
  induction h with
  | nil => simp
  | @step hist state clock now t st fuel hrun hle hwl ih =>
      obtain ⟨hnt, _, _, _⟩ := waitLoop_some _ _ _ _ _ hwl
      have hh := run_hist_le hrun
      refine List.pairwise_append.mpr ⟨ih, by simp, ?_⟩
      intro a ha b hb
      simp only [List.mem_singleton] at hb
      subst hb
      have := hh a ha
      omega

/-- Core window bound: for any window of width `w ≤ longTermWindow` ending
anywhere, the number of admissions inside it never exceeds any limit the
admission-time check enforces on the pruned state. -/
theorem run_window_count {hist state : List Int} {clock : Int} (h : Run hist state clock)
    (w : Int) (lim : Nat) (hwW : w ≤ longTermWindow)
    (hbound : ∀ (ts : List Int) (u : Int), ts.length < longTermLimit →
      shortCount ts u < shortTermLimit →
      List.countP (fun x => decide (u - w < x) && decide (x ≤ u)) ts < lim) :
    ∀ τ : Int, List.countP (fun x => decide (τ - w < x) && decide (x ≤ τ)) hist ≤ lim := by
  induction h with
  | nil => simp
  | @step hist state clock now t st fuel hrun hle hwl ih =>
      intro τ
      obtain ⟨hnt, hst, hlong, hshort⟩ := waitLoop_some _ _ _ _ _ hwl
      obtain ⟨c, hcW, hstate⟩ := run_state_filter hrun
      have hhle := run_hist_le hrun
      rw [List.countP_append]
      by_cases hτ : (decide (τ - w < t) && decide (t ≤ τ)) = true
      · have ht1 : τ - w < t ∧ t ≤ τ := by simpa using hτ
        have m1 : List.countP (fun x => decide (τ - w < x) && decide (x ≤ τ)) hist ≤
            List.countP (fun x => decide (t - w < x) && decide (x ≤ t)) hist := by
          apply List.countP_mono_left
          intro x hx hpx
          have hxc := hhle x hx
          simp only [Bool.and_eq_true, decide_eq_true_eq] at hpx ⊢
          omega
        have m2 : List.countP (fun x => decide (t - w < x) && decide (x ≤ t)) hist ≤
            List.countP (fun x => decide (t - w < x) && decide (x ≤ t)) (pruneOld state t) := by
          rw [hstate]
          simp only [pruneOld, List.filter_filter, List.countP_filter]
          apply List.countP_mono_left
          intro x hx hpx
          simp only [Bool.and_eq_true, decide_eq_true_eq] at hpx ⊢
          refine ⟨⟨hpx.1, hpx.2⟩, ?_, ?_⟩ <;> omega
        have m3 := hbound (pruneOld state t) t hlong hshort
        have hone : List.countP (fun x => decide (τ - w < x) && decide (x ≤ τ)) [t] ≤ 1 := by
          simp only [List.countP_cons, List.countP_nil, Nat.zero_add]
          split_ifs <;> omega
        omega
      · have hzero : List.countP (fun x => decide (τ - w < x) && decide (x ≤ τ)) [t] = 0 := by
          simp only [List.countP_cons, List.countP_nil, hτ]
          simp [hτ]
        have := ih τ
        omega

/-- Spacing: if no window of width `w` ever holds more than `lim`
admissions, the admission `lim` places later is at least `w` later. -/
theorem run_gap {hist state : List Int} {clock : Int} (h : Run hist state clock)
    (w : Int) (lim : Nat)
    (hcount : ∀ τ, List.countP (fun x => decide (τ - w < x) && decide (x ≤ τ)) hist ≤ lim) :
    ∀ (i : Nat) (hl : i + lim < hist.length),
      hist.get ⟨i, by omega⟩ + w ≤ hist.get ⟨i + lim, hl⟩ := by
  intro i hl
  by_contra hlt
  push_neg at hlt
  have hsorted := run_sorted h
  have hsub : ((hist.drop i).take (lim + 1)).Sublist hist :=
    ((hist.drop i).take_sublist _).trans (hist.drop_sublist i)
  have hlen : ((hist.drop i).take (lim + 1)).length = lim + 1 := by
    simp only [List.length_take, List.length_drop]
    omega
  have hall : ∀ x ∈ (hist.drop i).take (lim + 1),
      (decide (hist.get ⟨i + lim, hl⟩ - w < x) && decide (x ≤ hist.get ⟨i + lim, hl⟩)) = true := by
    intro x hx
    obtain ⟨k, hk, hxk⟩ := List.mem_iff_getElem.mp hx
    rw [hlen] at hk
    have hkd : ((hist.drop i).take (lim + 1))[k] = hist.get ⟨i + k, by omega⟩ := by
      rw [List.getElem_take, List.getElem_drop]
      rfl
    rw [hkd] at hxk
    rw [← hxk]
    have hlow : hist.get ⟨i, by omega⟩ ≤ hist.get ⟨i + k, by omega⟩ :=
      sorted_get_le hsorted i (i + k) (by omega) (by omega) (by omega)
    have hhigh : hist.get ⟨i + k, by omega⟩ ≤ hist.get ⟨i + lim, hl⟩ :=
      sorted_get_le hsorted (i + k) (i + lim) (by omega) (by omega) (by omega)
    simp only [Bool.and_eq_true, decide_eq_true_eq]
    omega
  have hcnt : List.countP
      (fun x => decide (hist.get ⟨i + lim, hl⟩ - w < x) && decide (x ≤ hist.get ⟨i + lim, hl⟩))
      ((hist.drop i).take (lim + 1)) = lim + 1 := by
    rw [List.countP_eq_length.mpr hall, hlen]
  have hle2 := hsub.countP_le
    (fun x => decide (hist.get ⟨i + lim, hl⟩ - w < x) && decide (x ≤ hist.get ⟨i + lim, hl⟩))
  have := hcount (hist.get ⟨i + lim, hl⟩)
  omega

/-- C2: across any sequence of `Wait` calls (with time never flowing
backwards), every rolling window of length 60s ending at any instant
holds at most 10 admitted timestamps and every window of length 10s at
most 4; consequently the admission 10 (resp. 4) places after any
admission is at least 60s (resp. 10s) later — in particular the (N+1)-th
call with no artificial delay is admitted no earlier than the first
call's admission plus the window. -/
theorem c2_rate_limiter :
    ∀ (hist state : List Int) (clock : Int), Run hist state clock →
      (∀ τ : Int,
        List.countP (fun x => decide (τ - longTermWindow < x) && decide (x ≤ τ)) hist ≤
          longTermLimit ∧
        List.countP (fun x => decide (τ - shortTermWindow < x) && decide (x ≤ τ)) hist ≤
          shortTermLimit) ∧
      (∀ (i : Nat) (hl : i + longTermLimit < hist.length),
        hist.get ⟨i, by omega⟩ + longTermWindow ≤ hist.get ⟨i + longTermLimit, hl⟩) ∧
      (∀ (i : Nat) (hl : i + shortTermLimit < hist.length),
        hist.get ⟨i, by omega⟩ + shortTermWindow ≤ hist.get ⟨i + shortTermLimit, hl⟩) := by
  intro hist state clock h
  have hlongB : ∀ (ts : List Int) (u : Int), ts.length < longTermLimit →
      shortCount ts u < shortTermLimit →
      List.countP (fun x => decide (u - longTermWindow < x) && decide (x ≤ u)) ts <
        longTermLimit :=
    fun ts _ h1 _ => lt_of_le_of_lt (List.countP_le_length _) h1
  have hshortB : ∀ (ts : List Int) (u : Int), ts.length < longTermLimit →
      shortCount ts u < shortTermLimit →
      List.countP (fun x => decide (u - shortTermWindow < x) && decide (x ≤ u)) ts <
        shortTermLimit := by
    intro ts u _ h2
    refine lt_of_le_of_lt ?_ h2
    unfold shortCount
    rw [← List.countP_eq_length_filter]
    apply List.countP_mono_left
    intro x _ hpx
    simp only [Bool.and_eq_true, decide_eq_true_eq] at hpx
    simp only [decide_eq_true_eq]
    exact hpx.1
  have hlong := run_window_count h longTermWindow longTermLimit le_rfl hlongB
  have hshort := run_window_count h shortTermWindow shortTermLimit (by decide) hshortB
  exact ⟨fun τ => ⟨hlong τ, hshort τ⟩, run_gap h _ _ hlong, run_gap h _ _ hshort⟩

/-- Witness for C2: five back-to-back calls starting at instant 0 admit
the first four at 0 and the fifth only at 10001 ms (one short window plus
the millisecond margin later), and the window bound holds on that
history. -/
theorem c2_rate_limiter_witness :
    List.countP (fun x => decide ((0 : Int) - shortTermWindow < x) && decide (x ≤ 0))
      [0, 0, 0, 0, (10001 : Int)] ≤ shortTermLimit ∧
    [0, 0, 0, 0, (10001 : Int)].get ⟨0, by norm_num⟩ + shortTermWindow ≤
      [0, 0, 0, 0, (10001 : Int)].get ⟨4, by norm_num⟩ := by
  have r1 : Run [0] [0] 0 := by
    have h := Run.step 1 (Run.nil 0) (le_refl 0) (show waitLoop 1 [] 0 = some ([0], 0) by decide)
    simpa using h
  have r2 : Run [0, 0] [0, 0] 0 := by
    have h := Run.step 1 r1 (le_refl 0) (show waitLoop 1 [0] 0 = some ([0, 0], 0) by decide)
    simpa using h
  have r3 : Run [0, 0, 0] [0, 0, 0] 0 := by
    have h := Run.step 1 r2 (le_refl 0)
      (show waitLoop 1 [0, 0] 0 = some ([0, 0, 0], 0) by decide)
    simpa using h
  have r4 : Run [0, 0, 0, 0] [0, 0, 0, 0] 0 := by
    have h := Run.step 1 r3 (le_refl 0)
      (show waitLoop 1 [0, 0, 0] 0 = some ([0, 0, 0, 0], 0) by decide)
    simpa using h
  have r5 : Run [0, 0, 0, 0, 10001] [0, 0, 0, 0, 10001] 10001 := by
    have h := Run.step 2 r4 (le_refl 0)
      (show waitLoop 2 [0, 0, 0, 0] 0 = some ([0, 0, 0, 0, 10001], 10001) by decide)
    simpa using h
  have h := c2_rate_limiter [0, 0, 0, 0, 10001] [0, 0, 0, 0, 10001] 10001 r5
  refine ⟨(h.1 0).2, ?_⟩
  have := h.2.2 0 (by decide)
  simpa using this

end OahcGo
